import Mathlib

/-!
# Verification of the `dcc-lsystem` crate against its specification

This file gives a shallow embedding, in Lean 4, of the parts of the
`dcc-lsystem` crate that the specification talks about:

* `BaseTurtle` — the integer-position turtle with line recording and
  bounding-box tracking (`src/turtle.rs`);
* `Heading` — the four-way compass heading (`src/turtle.rs`);
* `SimpleTurtle` — the turtle with a continuous (`f32`) heading and a
  save/restore stack (`src/turtle.rs`);
* `TurtleLSystemState` and the per-action callbacks registered by
  `TurtleLSystemBuilder::finish` (`src/turtle.rs`);
* the `Distribution` trait with its `Uniform` and constant instances
  (`src/turtle.rs`);
* the string-rewriting engine (`LSystem::step` / `step_by` / `render`).

Rust `i32` arithmetic is modelled with `Int` (none of the verified
properties depends on 32-bit wraparound).  `f32` values are modelled by the
uninterpreted term algebra `F32`: the code only ever builds `f32` values
from integers via `to_radians`, `cos`, `sin` and multiplication and then
truncates back with `as i32`, and every property proved here holds for
every interpretation of that truncation, which is passed around as an
explicit function `trunc : F32 → Int`.  Rust panics (`expect`,
`gen_range` on an empty range) are modelled with `Option` / `Except`.
-/

/-! Part: BaseTurtle (`src/turtle.rs`, `struct BaseTurtle`) -/

/-- The state of `BaseTurtle`: position, recorded lines, running bounds and
the pen flag.  Field names follow the Rust struct. -/
structure BaseTurtle where
  x : Int
  y : Int
  lines : List (Int × Int × Int × Int)
  max_x : Int
  max_y : Int
  min_x : Int
  min_y : Int
  pen_down : Bool
  deriving Repr, DecidableEq

/-- Rust `BaseTurtle::new()`. -/
def BaseTurtle.new : BaseTurtle :=
  { x := 0, y := 0, lines := [], max_x := 0, max_y := 0, min_x := 0,
    min_y := 0, pen_down := true }

/-- Rust `BaseTurtle::update_bounds`. -/
def BaseTurtle.update_bounds (t : BaseTurtle) : BaseTurtle :=
  { t with
    min_x := min t.min_x t.x
    min_y := min t.min_y t.y
    max_x := max t.max_x t.x
    max_y := max t.max_y t.y }

/-- Rust `BaseTurtle::set_position`. -/
def BaseTurtle.set_position (t : BaseTurtle) (x y : Int) : BaseTurtle :=
  BaseTurtle.update_bounds { t with x := x, y := y }

/-- Rust `BaseTurtle::delta_move`.  A `Vec::push` appends at the end of the
vector, hence the `++ [_]`. -/
def BaseTurtle.delta_move (t : BaseTurtle) (dx dy : Int) : BaseTurtle :=
  let x2 := t.x + dx
  let y2 := t.y + dy
  let t1 := if t.pen_down then { t with lines := t.lines ++ [(t.x, t.y, x2, y2)] } else t
  BaseTurtle.update_bounds { t1 with x := x2, y := y2 }

/-- Rust `BaseTurtle::bounds`, returning
`(total_width, total_height, min_x, min_y)`.  The Rust code returns the
first two components as `u32` casts of `max_x + min_x.abs()` (resp. `y`);
we keep them as the integers being cast. -/
def BaseTurtle.bounds (t : BaseTurtle) : Int × Int × Int × Int :=
  (t.max_x + |t.min_x|, t.max_y + |t.min_y|, t.min_x, t.min_y)

/-- Rust `BaseTurtle::pen_down`. -/
def BaseTurtle.penDown (t : BaseTurtle) : BaseTurtle :=
  { t with pen_down := true }

/-- Rust `BaseTurtle::pen_up`. -/
def BaseTurtle.penUp (t : BaseTurtle) : BaseTurtle :=
  { t with pen_down := false }

/-- One call in a caller's interaction with a `BaseTurtle`: exactly the
mutating methods of its public interface. -/
inductive TurtleEvent where
  | deltaMove (dx dy : Int)
  | setPosition (x y : Int)
  | penUp
  | penDown
  deriving Repr, DecidableEq

/-- Apply one method call to a `BaseTurtle`. -/
def BaseTurtle.apply (t : BaseTurtle) : TurtleEvent → BaseTurtle
  | .deltaMove dx dy => t.delta_move dx dy
  | .setPosition x y => t.set_position x y
  | .penUp => t.penUp
  | .penDown => t.penDown

/-- Apply a sequence of method calls, left to right. -/
def BaseTurtle.run (t : BaseTurtle) (evs : List TurtleEvent) : BaseTurtle :=
  evs.foldl BaseTurtle.apply t

/-- The positions the turtle occupies after each of the calls in `evs`,
starting from state `t` (the position before the first call excluded). -/
def BaseTurtle.positionsFrom (t : BaseTurtle) : List TurtleEvent → List (Int × Int)
  | [] => []
  | e :: evs => ((t.apply e).x, (t.apply e).y) :: (t.apply e).positionsFrom evs

/-- All positions ever visited when the calls `evs` are made on a fresh
turtle: the start position `(0, 0)` followed by the position after each
call. -/
def visitedPositions (evs : List TurtleEvent) : List (Int × Int) :=
  (0, 0) :: BaseTurtle.new.positionsFrom evs

/-! Part: Heading (`src/turtle.rs`, `enum Heading`) -/

/-- The four-way compass heading. -/
inductive Heading where
  | North
  | South
  | East
  | West
  deriving Repr, DecidableEq

/-- Rust `Heading::left`. -/
def Heading.left : Heading → Heading
  | .North => .West
  | .West => .South
  | .South => .East
  | .East => .North

/-- Rust `Heading::right`, defined in the source as three lefts. -/
def Heading.right (h : Heading) : Heading :=
  h.left.left.left

/-- Rust `Heading::dx`. -/
def Heading.dx : Heading → Int
  | .West => -1
  | .East => 1
  | _ => 0

/-- Rust `Heading::dy`. -/
def Heading.dy : Heading → Int
  | .North => 1
  | .South => -1
  | _ => 0

/-! Part: The `f32` term algebra

`SimpleTurtle` stores its heading as an `f32` and the only `f32`
computations in the crate are `(i as f32).to_radians()`,
`heading.cos() * d as f32`, `heading.sin() * d as f32` and the constant
`FRAC_PI_2`.  We model these values as uninterpreted terms; the integer
truncation `as i32` performed before `delta_move` is an explicit parameter
`trunc : F32 → Int` of every function that needs it, so everything proved
below holds for the actual `f32` semantics (and any other). -/

/-- Uninterpreted `f32` expressions produced by the crate. -/
inductive F32 where
  | piHalf
  | ofInt (n : Int)
  | toRadians (x : F32)
  | cos (x : F32)
  | sin (x : F32)
  | mul (x y : F32)
  | add (x y : F32)
  | sub (x y : F32)
  deriving Repr, DecidableEq

/-! Part: SimpleTurtle (`src/turtle.rs`, `struct SimpleTurtle`) -/

/-- The state of `SimpleTurtle`.  The Rust `Vec` stack is modelled with the
top of the stack at the head of the list. -/
structure SimpleTurtle where
  turtle : BaseTurtle
  heading : F32
  stack : List (Int × Int × F32)
  pen_down : Bool
  deriving Repr, DecidableEq

/-- Rust `SimpleTurtle::new()` (initial heading `FRAC_PI_2`). -/
def SimpleTurtle.new : SimpleTurtle :=
  { turtle := BaseTurtle.new, heading := F32.piHalf, stack := [], pen_down := true }

/-- Rust `SimpleTurtle::left`. -/
def SimpleTurtle.left (t : SimpleTurtle) (angle : F32) : SimpleTurtle :=
  { t with heading := F32.add t.heading angle }

/-- Rust `SimpleTurtle::right`. -/
def SimpleTurtle.right (t : SimpleTurtle) (angle : F32) : SimpleTurtle :=
  { t with heading := F32.sub t.heading angle }

/-- Rust `SimpleTurtle::set_heading`. -/
def SimpleTurtle.set_heading (t : SimpleTurtle) (heading : F32) : SimpleTurtle :=
  { t with heading := heading }

/-- Rust `<SimpleTurtle as Stack>::push`: pushes `(x, y, heading)`. -/
def SimpleTurtle.push (t : SimpleTurtle) : SimpleTurtle :=
  { t with stack := (t.turtle.x, t.turtle.y, t.heading) :: t.stack }

/-- Rust `<SimpleTurtle as Stack>::pop`.  The Rust code calls
`.expect("Called pop on empty stack")`, i.e. panics on an empty stack;
`none` models that panic. -/
def SimpleTurtle.pop (t : SimpleTurtle) : Option SimpleTurtle :=
  match t.stack with
  | [] => none
  | (x, y, heading) :: rest =>
      some { t with turtle := t.turtle.set_position x y, heading := heading, stack := rest }

/-- Rust `<SimpleTurtle as MovingTurtle>::forward`:
`dx = heading.cos() * distance as f32`, `dy = heading.sin() * distance as f32`,
then `delta_move(dx as i32, dy as i32)` — but only when this turtle's own
pen is down (otherwise nothing at all happens). -/
def SimpleTurtle.forward (trunc : F32 → Int) (t : SimpleTurtle) (distance : Int) : SimpleTurtle :=
  let dx := trunc (F32.mul (F32.cos t.heading) (F32.ofInt distance))
  let dy := trunc (F32.mul (F32.sin t.heading) (F32.ofInt distance))
  if t.pen_down then { t with turtle := t.turtle.delta_move dx dy } else t

/-! Part: Distributions (`src/turtle.rs`, trait `Distribution`) -/

/-- Rust `struct Uniform`.  `Uniform::new(lower, upper)` just stores its
arguments: there is no validation at construction time. -/
structure Uniform where
  lower : Int
  upper : Int
  deriving Repr, DecidableEq

/-- Rust `Uniform::new`. -/
def Uniform.new (lower upper : Int) : Uniform :=
  { lower := lower, upper := upper }

/-- Rust `<Uniform as Distribution>::sample`, i.e.
`rand::thread_rng().gen_range(lower, upper)`.  `gen_range` panics when
`lower >= upper` (modelled by `none`); otherwise it returns a value of
`[lower, upper)` determined by the generator's raw output, modelled here by
the integer `r` supplied by the caller. -/
def Uniform.sample (u : Uniform) (r : Int) : Option Int :=
  if u.lower < u.upper then some (u.lower + r.emod (u.upper - u.lower)) else none

/-- The closed set of `Box<dyn Distribution>` values the crate can build:
a `Uniform`, or a constant (`impl Distribution for i32`). -/
inductive Distribution where
  | uniform (u : Uniform)
  | const (value : Int)
  deriving Repr, DecidableEq

/-- Rust `Distribution::sample`, given the generator's raw output `r`. -/
def Distribution.sample : Distribution → Int → Option Int
  | .uniform u, r => u.sample r
  | .const v, _ => some v

/-! Part: The turtle interpreter
(`src/turtle.rs`, `TurtleLSystemState` and `TurtleLSystemBuilder::finish`) -/

/-- Rust `struct TurtleLSystemState`: a `SimpleTurtle` plus the accumulated
rotation and its parallel stack. -/
structure TurtleLSystemState where
  angle : Int
  angle_stack : List Int
  turtle : SimpleTurtle
  deriving Repr, DecidableEq

/-- Rust `TurtleLSystemState::new()`. -/
def TurtleLSystemState.new : TurtleLSystemState :=
  { angle := 0, angle_stack := [], turtle := SimpleTurtle.new }

/-- Rust `enum TurtleAction`. -/
inductive TurtleAction where
  | Nothing
  | Rotate (angle : Int)
  | Forward (distance : Int)
  | StochasticRotate (dist : Distribution)
  | StochasticForward (dist : Distribution)
  | Push
  | Pop
  deriving Repr, DecidableEq

/-- The ways replay can panic: `expect` on an empty stack
(`"Called pop on empty stack"` / `"Popped with empty stack"`), or
`gen_range` on an empty range. -/
inductive ReplayError where
  | stackUnderflow
  | emptyRange
  deriving Repr, DecidableEq

/-- One registered callback from `TurtleLSystemBuilder::finish`, applied to
the interpreter state.  `global_rotate` is the builder's global-rotate
scalar captured by the `Forward`/`StochasticForward` closures, `trunc` the
`f32`-to-`i32` truncation, and `rng` the stream of raw random values
(`rng k` is the value the thread-local generator produces for the `k`-th
sample drawn during the replay; the `Nat` component of the state counts
samples drawn so far).  Rust's `%` on `i32` truncates toward zero, hence
`Int.tmod`. -/
def execAction (global_rotate : Int) (trunc : F32 → Int) (rng : Nat → Int) :
    TurtleAction → TurtleLSystemState × Nat → Except ReplayError (TurtleLSystemState × Nat)
  | .Nothing, (s, k) => .ok (s, k)
  | .Rotate angle, (s, k) =>
      .ok ({ s with angle := (s.angle + angle).tmod 360 }, k)
  | .Forward distance, (s, k) =>
      let t1 := s.turtle.set_heading (F32.toRadians (F32.ofInt (global_rotate + s.angle)))
      .ok ({ s with turtle := SimpleTurtle.forward trunc t1 distance }, k)
  | .StochasticRotate dist, (s, k) =>
      match dist.sample (rng k) with
      | none => .error .emptyRange
      | some angle => .ok ({ s with angle := (s.angle + angle).tmod 360 }, k + 1)
  | .StochasticForward dist, (s, k) =>
      match dist.sample (rng k) with
      | none => .error .emptyRange
      | some distance =>
          let t1 := s.turtle.set_heading (F32.toRadians (F32.ofInt (global_rotate + s.angle)))
          .ok ({ s with turtle := SimpleTurtle.forward trunc t1 distance }, k + 1)
  | .Push, (s, k) =>
      .ok ({ s with turtle := s.turtle.push, angle_stack := s.angle :: s.angle_stack }, k)
  | .Pop, (s, k) =>
      match s.turtle.pop with
      | none => .error .stackUnderflow
      | some t1 =>
          match s.angle_stack with
          | [] => .error .stackUnderflow
          | a :: rest => .ok ({ s with turtle := t1, angle := a, angle_stack := rest }, k)

/-- Replay a sequence of registered actions (one per token occurrence of
the rewritten string, in order), threading the interpreter state and the
count of samples drawn; errors abort the replay, as a Rust panic would. -/
def replay (global_rotate : Int) (trunc : F32 → Int) (rng : Nat → Int) :
    List TurtleAction → TurtleLSystemState × Nat → Except ReplayError (TurtleLSystemState × Nat)
  | [], sk => .ok sk
  | a :: rest, sk =>
      match execAction global_rotate trunc rng a sk with
      | .error e => .error e
      | .ok sk1 => replay global_rotate trunc rng rest sk1

/-- Rust `true` exactly for `TurtleAction::Push`. -/
def TurtleAction.isPush : TurtleAction → Bool
  | .Push => true
  | _ => false

/-- Rust `true` exactly for `TurtleAction::Pop`. -/
def TurtleAction.isPop : TurtleAction → Bool
  | .Pop => true
  | _ => false

/-- Every `Pop` in the sequence is preceded by a matching unmatched `Push`:
in every prefix, the number of `Pop`s does not exceed the number of
`Push`es.  (Prefixes longer than the list add nothing, so bounding `n`
keeps the condition decidable.) -/
def BalancedActs (acts : List TurtleAction) : Prop :=
  ∀ n, n ≤ acts.length →
    (acts.take n).countP TurtleAction.isPop ≤ (acts.take n).countP TurtleAction.isPush

instance : DecidablePred BalancedActs := fun acts =>
  Nat.decidableBallLE acts.length _

/-! Part: The rewriting engine

The crate modules `system.rs`, `builder.rs` and `arena.rs` holding
`LSystem` are not among the sources provided (only `lib.rs`, whose doctest
exercises them, and `turtle.rs`).  The engine is therefore modelled from
the spec, §4.3, with the doctest of `lib.rs` fixing the render separator. -/

/-- Modelled from the spec: `LSystem::step` (the crate's `system.rs` is not
in the provided sources).  Each handle `h` of the current sequence is
replaced by `rules h` when a rule is present and by `[h]` itself
otherwise, and the results are concatenated in order. -/
def lsystemStep (rules : Nat → Option (List Nat)) (state : List Nat) : List Nat :=
  (state.map (fun h => (rules h).getD [h])).flatten

/-- Modelled from the spec: `LSystem::step_by(n)` applies `step` exactly
`n` times. -/
def lsystemStepBy (rules : Nat → Option (List Nat)) : Nat → List Nat → List Nat
  | 0, state => state
  | n + 1, state => lsystemStepBy rules n (lsystemStep rules state)

/-- Modelled from the spec: `LSystem::render` joins the name of each handle
of the current sequence in order.  The doctest of `lib.rs`
(`assert_eq!(system.render(), "AB")` for state `A B`) fixes the separator
to be empty. -/
def lsystemRender (name : Nat → String) (state : List Nat) : String :=
  String.join (state.map name)

/-- The Algae system of the doctest: tokens `A` (handle 0) and `B`
(handle 1), rules `A -> A B` and `B -> A`. -/
def algaeRules : Nat → Option (List Nat)
  | 0 => some [0, 1]
  | 1 => some [0]
  | _ => none

/-- Token names of the Algae system. -/
def algaeName : Nat → String
  | 0 => "A"
  | 1 => "B"
  | _ => ""

/-- The Algae system's render after `n` generations from the axiom `A`. -/
def algaeRender (n : Nat) : String :=
  lsystemRender algaeName (lsystemStepBy algaeRules n [0])

/-! Part: specification predicates -/

/-- All four running bounds of a `BaseTurtle` bracket its current
position. -/
def BaseTurtle.PosInv (t : BaseTurtle) : Prop :=
  t.min_x ≤ t.x ∧ t.x ≤ t.max_x ∧ t.min_y ≤ t.y ∧ t.y ≤ t.max_y

/-- What the bounds contract asserts of a final turtle state `t` and the
list `vs` of all positions it ever visited: `min_x`/`min_y` (resp.
`max_x`/`max_y`) are the minima (resp. maxima) of the visited coordinates,
`bounds()` returns `(max - min, max - min, min_x, min_y)`, and translating
every recorded line endpoint by `(-min_x, -min_y)` lands it inside
`[0, width] × [0, height]`. -/
def BoundsCorrect (t : BaseTurtle) (vs : List (Int × Int)) : Prop :=
  (∀ p ∈ vs, t.min_x ≤ p.1 ∧ p.1 ≤ t.max_x ∧ t.min_y ≤ p.2 ∧ p.2 ≤ t.max_y) ∧
  t.min_x ∈ vs.map Prod.fst ∧
  t.min_y ∈ vs.map Prod.snd ∧
  t.max_x ∈ vs.map Prod.fst ∧
  t.max_y ∈ vs.map Prod.snd ∧
  t.bounds = (t.max_x - t.min_x, t.max_y - t.min_y, t.min_x, t.min_y) ∧
  (∀ l ∈ t.lines,
    0 ≤ l.1 - t.min_x ∧ l.1 - t.min_x ≤ t.bounds.1 ∧
    0 ≤ l.2.1 - t.min_y ∧ l.2.1 - t.min_y ≤ t.bounds.2.1 ∧
    0 ≤ l.2.2.1 - t.min_x ∧ l.2.2.1 - t.min_x ≤ t.bounds.1 ∧
    0 ≤ l.2.2.2 - t.min_y ∧ l.2.2.2 - t.min_y ≤ t.bounds.2.1)

/-- The angle accumulator and every saved angle on the parallel stack lie
strictly between `-360` and `360`. -/
def AngleInv (s : TurtleLSystemState) : Prop :=
  -360 < s.angle ∧ s.angle < 360 ∧ ∀ a ∈ s.angle_stack, -360 < a ∧ a < 360

/-! Part: theorems -/

/-- C9: on the four-way compass `Heading`, `right()` equals
`left().left().left()`; consequently `left` and `right` are mutually
inverse quarter turns and four of either is the identity. -/
theorem heading_left_right_spec :
    ∀ h : Heading,
      h.right = h.left.left.left ∧
      h.left.right = h ∧
      h.right.left = h ∧
      h.left.left.left.left = h ∧
      h.right.right.right.right = h := by
  intro h
  cases h <;> exact ⟨rfl, rfl, rfl, rfl, rfl⟩

/-- C5: `delta_move(dx, dy)` appends the segment
`(x, y, x + dx, y + dy)` to the recorded lines exactly when the pen is
down (previously recorded lines are kept, in order), and in either case
updates the position to `(x + dx, y + dy)` and extends the min/max bounds
to cover the new position. -/
theorem delta_move_spec (t : BaseTurtle) (dx dy : Int) :
    (t.delta_move dx dy).lines =
      t.lines ++ (if t.pen_down then [(t.x, t.y, t.x + dx, t.y + dy)] else []) ∧
    (t.delta_move dx dy).x = t.x + dx ∧
    (t.delta_move dx dy).y = t.y + dy ∧
    (t.delta_move dx dy).min_x = min t.min_x (t.x + dx) ∧
    (t.delta_move dx dy).min_y = min t.min_y (t.y + dy) ∧
    (t.delta_move dx dy).max_x = max t.max_x (t.x + dx) ∧
    (t.delta_move dx dy).max_y = max t.max_y (t.y + dy) ∧
    (t.delta_move dx dy).pen_down = t.pen_down := by
  cases hp : t.pen_down <;>
    simp [BaseTurtle.delta_move, BaseTurtle.update_bounds, hp]

/-- C7: the callback registered for `Rotate(d)` replaces the accumulated
angle by the Rust remainder `(angle + d) % 360` and changes nothing else;
the callback for `StochasticRotate(dist)` behaves identically except that
`d` is drawn fresh from `dist.sample()` at each invocation (consuming one
raw random value), and aborts when sampling panics. -/
theorem rotate_action_spec (g : Int) (trunc : F32 → Int) (rng : Nat → Int)
    (d : Int) (dist : Distribution) (s : TurtleLSystemState) (k : Nat) :
    execAction g trunc rng (.Rotate d) (s, k) =
      .ok ({ s with angle := (s.angle + d).tmod 360 }, k) ∧
    (∀ d', dist.sample (rng k) = some d' →
      execAction g trunc rng (.StochasticRotate dist) (s, k) =
        .ok ({ s with angle := (s.angle + d').tmod 360 }, k + 1)) ∧
    (dist.sample (rng k) = none →
      execAction g trunc rng (.StochasticRotate dist) (s, k) = .error .emptyRange) := by
  refine ⟨rfl, ?_, ?_⟩
  · intro d' hd'
    simp [execAction, hd']
  · intro hnone
    simp [execAction, hnone]

/-- C7 witness: a `StochasticRotate` of the constant distribution `45`
turns the fresh state's angle into `45` and consumes one sample. -/
theorem rotate_action_spec_witness :
    (Distribution.const 45).sample ((fun _ => 7) 0) = some 45 ∧
    execAction 0 (fun _ => 0) (fun _ => 7)
        (.StochasticRotate (Distribution.const 45)) (TurtleLSystemState.new, 0) =
      .ok ({ TurtleLSystemState.new with angle := (TurtleLSystemState.new.angle + 45).tmod 360 }, 0 + 1) :=
  ⟨rfl, (rotate_action_spec 0 (fun _ => 0) (fun _ => 7) 0
      (Distribution.const 45) TurtleLSystemState.new 0).2.1 45 rfl⟩

/-- Helper: `SimpleTurtle::forward` never changes the heading. -/
theorem SimpleTurtle.forward_heading (trunc : F32 → Int) (t : SimpleTurtle) (d : Int) :
    (SimpleTurtle.forward trunc t d).heading = t.heading := by
  cases hp : t.pen_down <;> simp [SimpleTurtle.forward, hp]

/-- C6: the callback registered for `Forward(d)` first sets the turtle's
heading to `radians(global_rotate + angle)` and then moves it forward by
`d`; `StochasticForward` does the same with a freshly sampled distance.
The resulting heading is exactly `radians(global_rotate + angle)` — it is
recomputed from the integer accumulator at every forward action and does
not depend on the turtle's previous heading. -/
theorem forward_action_spec (g : Int) (trunc : F32 → Int) (rng : Nat → Int)
    (d : Int) (dist : Distribution) (s : TurtleLSystemState) (k : Nat) :
    execAction g trunc rng (.Forward d) (s, k) =
      .ok ({ s with turtle := SimpleTurtle.forward trunc (s.turtle.set_heading (F32.toRadians (F32.ofInt (g + s.angle)))) d }, k) ∧
    (∀ s' k', execAction g trunc rng (.Forward d) (s, k) = .ok (s', k') →
      s'.turtle.heading = F32.toRadians (F32.ofInt (g + s.angle))) ∧
    (∀ d', dist.sample (rng k) = some d' →
      execAction g trunc rng (.StochasticForward dist) (s, k) =
        .ok ({ s with turtle := SimpleTurtle.forward trunc (s.turtle.set_heading (F32.toRadians (F32.ofInt (g + s.angle)))) d' }, k + 1)) ∧
    (∀ s' k', execAction g trunc rng (.StochasticForward dist) (s, k) = .ok (s', k') →
      s'.turtle.heading = F32.toRadians (F32.ofInt (g + s.angle))) := by
  refine ⟨rfl, ?_, ?_, ?_⟩
  · intro s' k' h
    have h' : { s with turtle := SimpleTurtle.forward trunc (s.turtle.set_heading (F32.toRadians (F32.ofInt (g + s.angle)))) d } = s' := by
      exact (by simpa [execAction] using h : _ ∧ k = k').1
    subst h'
    simp [SimpleTurtle.forward_heading, SimpleTurtle.set_heading]
  · intro d' hd'
    simp [execAction, hd']
  · intro s' k' h
    cases hs : dist.sample (rng k) with
    | none => simp [execAction, hs] at h
    | some d' =>
        simp [execAction, hs] at h
        have h' := h.1
        subst h'
        simp [SimpleTurtle.forward_heading, SimpleTurtle.set_heading]

/-- C6 witness: executing `Forward 10` with global rotate `30` on the fresh
state leaves the turtle heading at `radians(30 + 0)`. -/
theorem forward_action_spec_witness :
    execAction 30 (fun _ => 1) (fun _ => 0) (.Forward 10) (TurtleLSystemState.new, 0) =
      .ok ({ TurtleLSystemState.new with turtle := SimpleTurtle.forward (fun _ => 1) (TurtleLSystemState.new.turtle.set_heading (F32.toRadians (F32.ofInt (30 + TurtleLSystemState.new.angle)))) 10 }, 0) ∧
    (TurtleLSystemState.new.turtle.set_heading
        (F32.toRadians (F32.ofInt (30 + TurtleLSystemState.new.angle)))).heading =
      F32.toRadians (F32.ofInt 30) :=
  ⟨(forward_action_spec 30 (fun _ => 1) (fun _ => 0) 10
      (Distribution.const 0) TurtleLSystemState.new 0).1, rfl⟩

/-- C8 counterexample: `Uniform::new(1, 0)` with the invalid range
`lower >= upper` is not rejected at construction — `new` succeeds and
returns the struct storing that range, and the failure (the `gen_range`
panic) happens only once `sample()` is called. -/
theorem uniform_new_not_rejected :
    Uniform.new 1 0 = { lower := 1, upper := 0 } ∧
    (Uniform.new 1 0).sample 0 = none ∧
    (Uniform.new 1 0).sample 17 = none :=
  ⟨rfl, rfl, rfl⟩

/-- C8 amended: `Uniform::new` performs no validation and always succeeds;
an invalid range (`lower >= upper`) makes every later `sample()` call
fail (the `gen_range` panic) instead, and the degenerate range
`upper = lower + 1` is valid, `sample()` then always yielding `lower`. -/
theorem uniform_sample_spec (lower upper r : Int) :
    Uniform.new lower upper = { lower := lower, upper := upper } ∧
    ((Uniform.new lower upper).sample r = none ↔ upper ≤ lower) ∧
    (Uniform.new lower (lower + 1)).sample r = some lower := by
  refine ⟨rfl, ?_, ?_⟩
  · constructor
    · intro h
      by_contra hlt
      simp [Uniform.sample, Uniform.new, lt_of_not_le hlt] at h
    · intro h
      simp [Uniform.sample, Uniform.new, not_lt.mpr h]
  · have h1 : r.emod 1 = 0 := Int.emod_one r
    simp [Uniform.sample, Uniform.new, h1]

/-- C1 counterexample: at generation 5 (five applications of `step()` to
the axiom `A`) the Algae system renders as the 13-character
`"ABAABABAABAAB"`, not as the 34-character string the claim places
there. -/
theorem algae_generation5_counterexample :
    algaeRender 5 = "ABAABABAABAAB" ∧
    algaeRender 5 ≠ "ABAABABAABAABABAABABAABAABABAABAAB" := by
  exact ⟨by decide, by decide⟩

/-- C1 amended: the Algae renders are `"A"` at generation 0, `"AB"` at 1,
`"ABA"` at 2, `"ABAABABAABAAB"` at 5, and
`"ABAABABAABAABABAABABAABAABABAABAAB"` at generation 7 — the generation
the `lib.rs` doctest actually reaches with two `step()` calls followed by
`step_by(5)`. -/
theorem algae_generations :
    algaeRender 0 = "A" ∧
    algaeRender 1 = "AB" ∧
    algaeRender 2 = "ABA" ∧
    algaeRender 5 = "ABAABABAABAAB" ∧
    algaeRender 7 = "ABAABABAABAABABAABABAABAABABAABAAB" ∧
    lsystemStepBy algaeRules 5 (lsystemStepBy algaeRules 2 [0]) =
      lsystemStepBy algaeRules 7 [0] := by
  exact ⟨by decide, by decide, by decide, by decide, by decide, by decide⟩

/-- C4: the `Pop` action pops the turtle's position/heading stack and the
parallel angle stack symmetrically, restoring the most recently pushed
`(x, y, heading)` triple and angle accumulator; popping with either stack
empty — directly via `SimpleTurtle::pop` or through the `Pop` callback —
is the fatal stack-underflow condition, not a silent no-op. -/
theorem pop_spec :
    (∀ t : SimpleTurtle, t.stack = [] → t.pop = none) ∧
    (∀ (t : SimpleTurtle) x y h rest, t.stack = (x, y, h) :: rest →
      t.pop = some { t with turtle := t.turtle.set_position x y, heading := h, stack := rest }) ∧
    (∀ (g : Int) (trunc : F32 → Int) (rng : Nat → Int) s k, s.turtle.stack = [] →
      execAction g trunc rng .Pop (s, k) = .error .stackUnderflow) ∧
    (∀ (g : Int) (trunc : F32 → Int) (rng : Nat → Int) s k x y h rest,
      s.turtle.stack = (x, y, h) :: rest → s.angle_stack = [] →
      execAction g trunc rng .Pop (s, k) = .error .stackUnderflow) ∧
    (∀ (g : Int) (trunc : F32 → Int) (rng : Nat → Int) s k x y h rest a arest,
      s.turtle.stack = (x, y, h) :: rest → s.angle_stack = a :: arest →
      ∃ s', execAction g trunc rng .Pop (s, k) = .ok (s', k) ∧
        s'.turtle.turtle.x = x ∧ s'.turtle.turtle.y = y ∧ s'.turtle.heading = h ∧
        s'.turtle.stack = rest ∧ s'.angle = a ∧ s'.angle_stack = arest) ∧
    (∀ (g : Int) (trunc : F32 → Int) (rng : Nat → Int) s k,
      ∃ s', replay g trunc rng [.Push, .Pop] (s, k) = .ok (s', k) ∧
        s'.turtle.turtle.x = s.turtle.turtle.x ∧ s'.turtle.turtle.y = s.turtle.turtle.y ∧
        s'.turtle.heading = s.turtle.heading ∧ s'.angle = s.angle ∧
        s'.turtle.stack = s.turtle.stack ∧ s'.angle_stack = s.angle_stack) := by
  refine ⟨?_, ?_, ?_, ?_, ?_, ?_⟩
  · intro t ht
    simp [SimpleTurtle.pop, ht]
  · intro t x y h rest ht
    simp [SimpleTurtle.pop, ht]
  · intro g trunc rng s k hs
    simp [execAction, SimpleTurtle.pop, hs]
  · intro g trunc rng s k x y h rest hs ha
    simp [execAction, SimpleTurtle.pop, hs, ha]
  · intro g trunc rng s k x y h rest a arest hs ha
    refine ⟨{ angle := a, angle_stack := arest, turtle := { turtle := s.turtle.turtle.set_position x y, heading := h, stack := rest, pen_down := s.turtle.pen_down } }, ?_, ?_, ?_, ?_, ?_, ?_, ?_⟩
    · simp [execAction, SimpleTurtle.pop, hs, ha]
    all_goals simp [BaseTurtle.set_position, BaseTurtle.update_bounds]
  · intro g trunc rng s k
    refine ⟨{ angle := s.angle, angle_stack := s.angle_stack, turtle := { turtle := s.turtle.turtle.set_position s.turtle.turtle.x s.turtle.turtle.y, heading := s.turtle.heading, stack := s.turtle.stack, pen_down := s.turtle.pen_down } }, ?_, ?_, ?_, ?_, ?_, ?_, ?_⟩
    · rfl
    all_goals simp [BaseTurtle.set_position, BaseTurtle.update_bounds]

/-- C4 witness: popping a fresh turtle underflows, and popping a state
whose stacks hold `(1, 2, π/2)` and `3` restores exactly those values. -/
theorem pop_spec_witness :
    SimpleTurtle.new.pop = none ∧
    (∃ s', execAction 0 (fun _ => 0) (fun _ => 0) .Pop
        ({ angle := 7, angle_stack := [3], turtle := { turtle := BaseTurtle.new, heading := F32.piHalf, stack := [(1, 2, F32.piHalf)], pen_down := true } }, 0) = .ok (s', 0) ∧
      s'.turtle.turtle.x = 1 ∧ s'.turtle.turtle.y = 2 ∧ s'.turtle.heading = F32.piHalf ∧
      s'.turtle.stack = [] ∧ s'.angle = 3 ∧ s'.angle_stack = []) :=
  ⟨pop_spec.1 SimpleTurtle.new rfl,
   pop_spec.2.2.2.2.1 0 (fun _ => 0) (fun _ => 0) _ 0 1 2 F32.piHalf [] 3 [] rfl rfl⟩

/-- Helper: the Rust remainder by 360 lies strictly between `-360` and
`360`. -/
theorem tmod_360_bounds (a : Int) : -360 < a.tmod 360 ∧ a.tmod 360 < 360 := by
  cases a with
  | ofNat m =>
      have h1 : (Int.ofNat m).tmod 360 = ((m % 360 : Nat) : Int) := rfl
      have h2 : m % 360 < 360 := Nat.mod_lt _ (by decide)
      rw [h1]
      omega
  | negSucc m =>
      have h1 : (Int.negSucc m).tmod 360 = -(((m + 1) % 360 : Nat) : Int) := rfl
      have h2 : (m + 1) % 360 < 360 := Nat.mod_lt _ (by decide)
      rw [h1]
      omega

/-- Helper: every single registered action preserves the angle
invariant. -/
theorem execAction_angleInv (g : Int) (trunc : F32 → Int) (rng : Nat → Int)
    (a : TurtleAction) (s : TurtleLSystemState) (k : Nat)
    (s' : TurtleLSystemState) (k' : Nat) (hInv : AngleInv s)
    (h : execAction g trunc rng a (s, k) = .ok (s', k')) : AngleInv s' := by
  obtain ⟨h1, h2, h3⟩ := hInv
  cases a with
  | Nothing =>
      simp [execAction] at h
      obtain ⟨h4, -⟩ := h
      subst h4
      exact ⟨h1, h2, h3⟩
  | Rotate d =>
      simp [execAction] at h
      obtain ⟨h4, -⟩ := h
      subst h4
      exact ⟨(tmod_360_bounds _).1, (tmod_360_bounds _).2, h3⟩
  | Forward d =>
      simp [execAction] at h
      obtain ⟨h4, -⟩ := h
      subst h4
      exact ⟨h1, h2, h3⟩
  | StochasticRotate dist =>
      cases hs : dist.sample (rng k) with
      | none => simp [execAction, hs] at h
      | some d =>
          simp [execAction, hs] at h
          obtain ⟨h4, -⟩ := h
          subst h4
          exact ⟨(tmod_360_bounds _).1, (tmod_360_bounds _).2, h3⟩
  | StochasticForward dist =>
      cases hs : dist.sample (rng k) with
      | none => simp [execAction, hs] at h
      | some d =>
          simp [execAction, hs] at h
          obtain ⟨h4, -⟩ := h
          subst h4
          exact ⟨h1, h2, h3⟩
  | Push =>
      simp [execAction] at h
      obtain ⟨h4, -⟩ := h
      subst h4
      refine ⟨h1, h2, ?_⟩
      intro b hb
      rcases List.mem_cons.mp hb with hb | hb
      · subst hb; exact ⟨h1, h2⟩
      · exact h3 b hb
  | Pop =>
      cases hp : s.turtle.pop with
      | none => simp [execAction, hp] at h
      | some t1 =>
          cases ha : s.angle_stack with
          | nil => simp [execAction, hp, ha] at h
          | cons b rest =>
              simp [execAction, hp, ha] at h
              obtain ⟨h4, -⟩ := h
              subst h4
              have hb := h3 b (ha ▸ List.mem_cons_self b rest)
              refine ⟨hb.1, hb.2, ?_⟩
              intro c hc
              exact h3 c (ha ▸ List.mem_cons_of_mem b hc)

/-- Helper: replay preserves the angle invariant. -/
theorem replay_angleInv (g : Int) (trunc : F32 → Int) (rng : Nat → Int) :
    ∀ (acts : List TurtleAction) (s : TurtleLSystemState) (k : Nat)
      (s' : TurtleLSystemState) (k' : Nat), AngleInv s →
      replay g trunc rng acts (s, k) = .ok (s', k') → AngleInv s' := by
  intro acts
  induction acts with
  | nil =>
      intro s k s' k' hInv h
      simp [replay] at h
      obtain ⟨h4, -⟩ := h
      subst h4
      exact hInv
  | cons a rest ih =>
      intro s k s' k' hInv h
      rw [replay] at h
      cases he : execAction g trunc rng a (s, k) with
      | error e => rw [he] at h; exact absurd h (by simp)
      | ok sk1 =>
          obtain ⟨s1, k1⟩ := sk1
          rw [he] at h
          exact ih s1 k1 s' k' (execAction_angleInv g trunc rng a s k s1 k1 hInv he) h

/-- C10: starting from `TurtleLSystemState::new()`, after replaying any
sequence of registered actions that completes without panicking, the angle
accumulator — and every saved angle on the parallel stack — lies strictly
between `-360` and `360` (the Rust `%` keeps a negative running sum
negative, so the whole open interval occurs). -/
theorem replay_angle_bounded (g : Int) (trunc : F32 → Int) (rng : Nat → Int)
    (acts : List TurtleAction) (s : TurtleLSystemState) (k : Nat)
    (h : replay g trunc rng acts (TurtleLSystemState.new, 0) = .ok (s, k)) :
    (-360 < s.angle ∧ s.angle < 360) ∧ (∀ a ∈ s.angle_stack, -360 < a ∧ a < 360) := by
  have hInv : AngleInv TurtleLSystemState.new := by
    refine ⟨by decide, by decide, ?_⟩
    intro a ha
    simp [TurtleLSystemState.new] at ha
  have h2 := replay_angleInv g trunc rng acts TurtleLSystemState.new 0 s k hInv h
  exact ⟨⟨h2.1, h2.2.1⟩, h2.2.2⟩

/-- C10 witness: rotating by `-100` and then `-300` from the fresh state
leaves the (negative, non-normalized) accumulator at `-40`. -/
theorem replay_angle_bounded_witness :
    replay 0 (fun _ => 0) (fun _ => 0) [.Rotate (-100), .Rotate (-300)] (TurtleLSystemState.new, 0) =
      .ok ({ TurtleLSystemState.new with angle := -40 }, 0) ∧
    ((-360 : Int) < -40 ∧ (-40 : Int) < 360) ∧
    (∀ a ∈ ({ TurtleLSystemState.new with angle := -40 } : TurtleLSystemState).angle_stack, -360 < a ∧ a < 360) := by
  have he : replay 0 (fun _ => 0) (fun _ => 0) [.Rotate (-100), .Rotate (-300)] (TurtleLSystemState.new, 0) =
      .ok ({ TurtleLSystemState.new with angle := -40 }, 0) := rfl
  have hb := replay_angle_bounded 0 (fun _ => 0) (fun _ => 0) [.Rotate (-100), .Rotate (-300)]
    { TurtleLSystemState.new with angle := -40 } 0 he
  exact ⟨he, hb.1, hb.2⟩

/-- Helper: `SimpleTurtle::forward` does not touch the save/restore
stack. -/
theorem SimpleTurtle.forward_stack (trunc : F32 → Int) (t : SimpleTurtle) (d : Int) :
    (SimpleTurtle.forward trunc t d).stack = t.stack := by
  cases hp : t.pen_down <;> simp [SimpleTurtle.forward, hp]

/-- Helper: from a state whose two stacks are in lockstep, a replay whose
prefixes never pop more than they push plus the current stack depth never
underflows, and every successful replay keeps the stacks in lockstep. -/
theorem replay_stack_aux (g : Int) (trunc : F32 → Int) (rng : Nat → Int) :
    ∀ (acts : List TurtleAction) (s : TurtleLSystemState) (k : Nat),
      s.turtle.stack.length = s.angle_stack.length →
      (∀ n, n ≤ acts.length →
        (acts.take n).countP TurtleAction.isPop ≤
          (acts.take n).countP TurtleAction.isPush + s.angle_stack.length) →
      replay g trunc rng acts (s, k) ≠ .error .stackUnderflow ∧
      ∀ s' k', replay g trunc rng acts (s, k) = .ok (s', k') →
        s'.turtle.stack.length = s'.angle_stack.length := by
  intro acts
  induction acts with
  | nil =>
      intro s k hlen hbal
      refine ⟨by simp [replay], ?_⟩
      intro s' k' h
      simp [replay] at h
      obtain ⟨h1, -⟩ := h
      subst h1
      exact hlen
  | cons a rest ih =>
      intro s k hlen hbal
      cases a with
      | Nothing =>
          exact ih s k hlen (fun n hn => by
            have hb := hbal (n + 1) (by simp only [List.length_cons]; omega)
            simpa [List.take_succ_cons, List.countP_cons, TurtleAction.isPush,
              TurtleAction.isPop] using hb)
      | Rotate d =>
          exact ih { s with angle := (s.angle + d).tmod 360 } k (by simpa using hlen)
            (fun n hn => by
              have hb := hbal (n + 1) (by simp only [List.length_cons]; omega)
              simpa [List.take_succ_cons, List.countP_cons, TurtleAction.isPush,
                TurtleAction.isPop] using hb)
      | Forward d =>
          exact ih { s with turtle := SimpleTurtle.forward trunc (s.turtle.set_heading (F32.toRadians (F32.ofInt (g + s.angle)))) d } k
            (by simpa [SimpleTurtle.forward_stack, SimpleTurtle.set_heading] using hlen)
            (fun n hn => by
              have hb := hbal (n + 1) (by simp only [List.length_cons]; omega)
              simpa [List.take_succ_cons, List.countP_cons, TurtleAction.isPush,
                TurtleAction.isPop] using hb)
      | StochasticRotate dist =>
          cases hs : dist.sample (rng k) with
          | none =>
              have hre : replay g trunc rng (TurtleAction.StochasticRotate dist :: rest) (s, k) = .error .emptyRange := by
                rw [replay]
                simp [execAction, hs]
              rw [hre]
              refine ⟨by simp, ?_⟩
              intro s' k' h
              exact absurd h (by simp)
          | some d =>
              have hre : replay g trunc rng (TurtleAction.StochasticRotate dist :: rest) (s, k) =
                  replay g trunc rng rest ({ s with angle := (s.angle + d).tmod 360 }, k + 1) := by
                rw [replay]
                simp [execAction, hs]
              rw [hre]
              exact ih { s with angle := (s.angle + d).tmod 360 } (k + 1) (by simpa using hlen)
                (fun n hn => by
                  have hb := hbal (n + 1) (by simp only [List.length_cons]; omega)
                  simpa [List.take_succ_cons, List.countP_cons, TurtleAction.isPush,
                    TurtleAction.isPop] using hb)
      | StochasticForward dist =>
          cases hs : dist.sample (rng k) with
          | none =>
              have hre : replay g trunc rng (TurtleAction.StochasticForward dist :: rest) (s, k) = .error .emptyRange := by
                rw [replay]
                simp [execAction, hs]
              rw [hre]
              refine ⟨by simp, ?_⟩
              intro s' k' h
              exact absurd h (by simp)
          | some d =>
              have hre : replay g trunc rng (TurtleAction.StochasticForward dist :: rest) (s, k) =
                  replay g trunc rng rest ({ s with turtle := SimpleTurtle.forward trunc (s.turtle.set_heading (F32.toRadians (F32.ofInt (g + s.angle)))) d }, k + 1) := by
                rw [replay]
                simp [execAction, hs]
              rw [hre]
              exact ih { s with turtle := SimpleTurtle.forward trunc (s.turtle.set_heading (F32.toRadians (F32.ofInt (g + s.angle)))) d } (k + 1)
                (by simpa [SimpleTurtle.forward_stack, SimpleTurtle.set_heading] using hlen)
                (fun n hn => by
                  have hb := hbal (n + 1) (by simp only [List.length_cons]; omega)
                  simpa [List.take_succ_cons, List.countP_cons, TurtleAction.isPush,
                    TurtleAction.isPop] using hb)
      | Push =>
          exact ih { s with turtle := s.turtle.push, angle_stack := s.angle :: s.angle_stack } k
            (by simp only [SimpleTurtle.push, List.length_cons]; simpa using hlen)
            (fun n hn => by
              have hb := hbal (n + 1) (by simp only [List.length_cons]; omega)
              simp only [List.take_succ_cons, List.countP_cons, TurtleAction.isPush,
                TurtleAction.isPop, List.length_cons] at hb ⊢
              simp at hb ⊢
              omega)
      | Pop =>
          have h1 : 1 ≤ s.angle_stack.length := by
            have hb := hbal 1 (by simp only [List.length_cons]; omega)
            simpa [List.take_succ_cons, List.countP_cons, TurtleAction.isPush,
              TurtleAction.isPop] using hb
          cases hsa : s.angle_stack with
          | nil => rw [hsa] at h1; simp at h1
          | cons b brest =>
              cases hts : s.turtle.stack with
              | nil => rw [hts, hsa] at hlen; simp at hlen
              | cons p prest =>
                  obtain ⟨px, py, ph⟩ := p
                  have he : execAction g trunc rng .Pop (s, k) =
                      .ok ({ s with turtle := { s.turtle with turtle := s.turtle.turtle.set_position px py, heading := ph, stack := prest }, angle := b, angle_stack := brest }, k) := by
                    simp [execAction, SimpleTurtle.pop, hts, hsa]
                  have hre : replay g trunc rng (TurtleAction.Pop :: rest) (s, k) =
                      replay g trunc rng rest ({ s with turtle := { s.turtle with turtle := s.turtle.turtle.set_position px py, heading := ph, stack := prest }, angle := b, angle_stack := brest }, k) := by
                    rw [replay, he]
                  rw [hre]
                  refine ih _ k ?_ ?_
                  · rw [hts, hsa] at hlen
                    simpa using hlen
                  · intro n hn
                    have hb := hbal (n + 1) (by simp only [List.length_cons]; omega)
                    rw [hsa] at hb
                    simp only [List.take_succ_cons, List.countP_cons, TurtleAction.isPush,
                      TurtleAction.isPop, List.length_cons] at hb ⊢
                    simp at hb ⊢
                    omega

/-- C3: from the fresh interpreter state, replaying any sequence of
registered actions in which every `Pop` is preceded by a matching
unmatched `Push` never reaches the stack-underflow condition, at any
prefix; and after every successfully replayed prefix the turtle's
position/heading stack and the parallel angle stack have equal length, so
both pops performed by the `Pop` callback succeed together. -/
theorem balanced_replay_no_underflow (g : Int) (trunc : F32 → Int) (rng : Nat → Int)
    (acts : List TurtleAction) (hbal : BalancedActs acts) :
    (∀ n, replay g trunc rng (acts.take n) (TurtleLSystemState.new, 0) ≠ .error .stackUnderflow) ∧
    (∀ n s k, replay g trunc rng (acts.take n) (TurtleLSystemState.new, 0) = .ok (s, k) →
      s.turtle.stack.length = s.angle_stack.length) := by
  have key : ∀ n,
      replay g trunc rng (acts.take n) (TurtleLSystemState.new, 0) ≠ .error .stackUnderflow ∧
      ∀ s' k', replay g trunc rng (acts.take n) (TurtleLSystemState.new, 0) = .ok (s', k') →
        s'.turtle.stack.length = s'.angle_stack.length := by
    intro n
    apply replay_stack_aux g trunc rng (acts.take n) TurtleLSystemState.new 0 rfl
    intro m hm
    have hmn : min m n ≤ acts.length := by
      rw [List.length_take] at hm
      omega
    have hb := hbal (min m n) hmn
    rw [List.take_take]
    simpa [TurtleLSystemState.new] using hb
  exact ⟨fun n => (key n).1, fun n s k h => (key n).2 s k h⟩

/-- C3 witness: the balanced sequence push, rotate, pop replays from the
fresh state without reaching the underflow condition. -/
theorem balanced_replay_no_underflow_witness :
    BalancedActs [TurtleAction.Push, TurtleAction.Rotate 90, TurtleAction.Pop] ∧
    ((∀ n, replay 0 (fun _ => 0) (fun _ => 0) ([TurtleAction.Push, TurtleAction.Rotate 90, TurtleAction.Pop].take n) (TurtleLSystemState.new, 0) ≠ .error .stackUnderflow) ∧
     (∀ n s k, replay 0 (fun _ => 0) (fun _ => 0) ([TurtleAction.Push, TurtleAction.Rotate 90, TurtleAction.Pop].take n) (TurtleLSystemState.new, 0) = .ok (s, k) →
       s.turtle.stack.length = s.angle_stack.length)) :=
  ⟨by decide,
   balanced_replay_no_underflow 0 (fun _ => 0) (fun _ => 0)
     [TurtleAction.Push, TurtleAction.Rotate 90, TurtleAction.Pop] (by decide)⟩

/-- Helper: a left fold of `min` is at most its initial value. -/
theorem foldl_min_le_init {α : Type} (f : α → Int) :
    ∀ (l : List α) (i : Int), List.foldl (fun m q => min m (f q)) i l ≤ i := by
  intro l
  induction l with
  | nil => intro i; simp
  | cons a l ih =>
      intro i
      simp only [List.foldl_cons]
      exact (ih (min i (f a))).trans (min_le_left _ _)

/-- Helper: a left fold of `min` is at most each folded value. -/
theorem foldl_min_le_mem {α : Type} (f : α → Int) :
    ∀ (l : List α) (i : Int) (p : α), p ∈ l →
      List.foldl (fun m q => min m (f q)) i l ≤ f p := by
  intro l
  induction l with
  | nil => intro i p hp; simp at hp
  | cons a l ih =>
      intro i p hp
      simp only [List.foldl_cons]
      rcases List.mem_cons.mp hp with h | h
      · subst h
        exact (foldl_min_le_init f l _).trans (min_le_right _ _)
      · exact ih _ p h

/-- Helper: a left fold of `min` is its initial value or a folded value. -/
theorem foldl_min_eq_mem {α : Type} (f : α → Int) :
    ∀ (l : List α) (i : Int),
      List.foldl (fun m q => min m (f q)) i l = i ∨
      ∃ p ∈ l, List.foldl (fun m q => min m (f q)) i l = f p := by
  intro l
  induction l with
  | nil => intro i; exact Or.inl rfl
  | cons a l ih =>
      intro i
      simp only [List.foldl_cons]
      rcases ih (min i (f a)) with h | ⟨p, hp, h⟩
      · rcases le_total i (f a) with hle | hle
        · exact Or.inl (by rw [h, min_eq_left hle])
        · exact Or.inr ⟨a, List.mem_cons_self a l, by rw [h, min_eq_right hle]⟩
      · exact Or.inr ⟨p, List.mem_cons_of_mem a hp, h⟩

/-- Helper: a left fold of `max` is at least its initial value. -/
theorem foldl_max_ge_init {α : Type} (f : α → Int) :
    ∀ (l : List α) (i : Int), i ≤ List.foldl (fun m q => max m (f q)) i l := by
  intro l
  induction l with
  | nil => intro i; simp
  | cons a l ih =>
      intro i
      simp only [List.foldl_cons]
      exact (le_max_left _ _).trans (ih (max i (f a)))

/-- Helper: a left fold of `max` is at least each folded value. -/
theorem foldl_max_ge_mem {α : Type} (f : α → Int) :
    ∀ (l : List α) (i : Int) (p : α), p ∈ l →
      f p ≤ List.foldl (fun m q => max m (f q)) i l := by
  intro l
  induction l with
  | nil => intro i p hp; simp at hp
  | cons a l ih =>
      intro i p hp
      simp only [List.foldl_cons]
      rcases List.mem_cons.mp hp with h | h
      · subst h
        exact (le_max_right _ _).trans (foldl_max_ge_init f l _)
      · exact ih _ p h

/-- Helper: a left fold of `max` is its initial value or a folded value. -/
theorem foldl_max_eq_mem {α : Type} (f : α → Int) :
    ∀ (l : List α) (i : Int),
      List.foldl (fun m q => max m (f q)) i l = i ∨
      ∃ p ∈ l, List.foldl (fun m q => max m (f q)) i l = f p := by
  intro l
  induction l with
  | nil => intro i; exact Or.inl rfl
  | cons a l ih =>
      intro i
      simp only [List.foldl_cons]
      rcases ih (max i (f a)) with h | ⟨p, hp, h⟩
      · rcases le_total i (f a) with hle | hle
        · exact Or.inr ⟨a, List.mem_cons_self a l, by rw [h, max_eq_right hle]⟩
        · exact Or.inl (by rw [h, max_eq_left hle])
      · exact Or.inr ⟨p, List.mem_cons_of_mem a hp, h⟩

/-- Helper: every method call keeps the bounds bracketing the current
position. -/
theorem BaseTurtle.apply_posInv (t : BaseTurtle) (e : TurtleEvent) (h : t.PosInv) :
    (t.apply e).PosInv := by
  obtain ⟨h1, h2, h3, h4⟩ := h
  cases e with
  | deltaMove dx dy =>
      exact ⟨min_le_right _ _, le_max_right _ _, min_le_right _ _, le_max_right _ _⟩
  | setPosition x y =>
      exact ⟨min_le_right _ _, le_max_right _ _, min_le_right _ _, le_max_right _ _⟩
  | penUp => exact ⟨h1, h2, h3, h4⟩
  | penDown => exact ⟨h1, h2, h3, h4⟩

/-- Helper: after every method call, each new bound is the `min`/`max` of
the old bound and the new position. -/
theorem BaseTurtle.apply_bounds (t : BaseTurtle) (e : TurtleEvent) (h : t.PosInv) :
    (t.apply e).min_x = min t.min_x (t.apply e).x ∧
    (t.apply e).min_y = min t.min_y (t.apply e).y ∧
    (t.apply e).max_x = max t.max_x (t.apply e).x ∧
    (t.apply e).max_y = max t.max_y (t.apply e).y := by
  obtain ⟨h1, h2, h3, h4⟩ := h
  cases e with
  | deltaMove dx dy =>
      cases hp : t.pen_down <;>
        simp [BaseTurtle.apply, BaseTurtle.delta_move, BaseTurtle.update_bounds, hp]
  | setPosition x y =>
      simp [BaseTurtle.apply, BaseTurtle.set_position, BaseTurtle.update_bounds]
  | penUp =>
      exact ⟨(min_eq_left h1).symm, (min_eq_left h3).symm,
        (max_eq_left h2).symm, (max_eq_left h4).symm⟩
  | penDown =>
      exact ⟨(min_eq_left h1).symm, (min_eq_left h3).symm,
        (max_eq_left h2).symm, (max_eq_left h4).symm⟩

/-- Helper: the final bounds of a run are folds of `min`/`max` over the
positions visited during the run. -/
theorem run_bounds_fold :
    ∀ (evs : List TurtleEvent) (t : BaseTurtle), t.PosInv →
      (t.run evs).min_x = List.foldl (fun m q => min m q.1) t.min_x (t.positionsFrom evs) ∧
      (t.run evs).min_y = List.foldl (fun m q => min m q.2) t.min_y (t.positionsFrom evs) ∧
      (t.run evs).max_x = List.foldl (fun m q => max m q.1) t.max_x (t.positionsFrom evs) ∧
      (t.run evs).max_y = List.foldl (fun m q => max m q.2) t.max_y (t.positionsFrom evs) := by
  intro evs
  induction evs with
  | nil => intro t h; simp [BaseTurtle.run, BaseTurtle.positionsFrom]
  | cons e evs ih =>
      intro t h
      obtain ⟨hb1, hb2, hb3, hb4⟩ := BaseTurtle.apply_bounds t e h
      obtain ⟨hr1, hr2, hr3, hr4⟩ := ih (t.apply e) (BaseTurtle.apply_posInv t e h)
      simp only [BaseTurtle.run, List.foldl_cons, BaseTurtle.positionsFrom] at hr1 hr2 hr3 hr4 ⊢
      refine ⟨?_, ?_, ?_, ?_⟩
      · rw [hr1, hb1]
      · rw [hr2, hb2]
      · rw [hr3, hb3]
      · rw [hr4, hb4]

/-- Helper: every line recorded during a run has both endpoints among the
starting position and the positions visited during the run. -/
theorem run_lines_endpoints :
    ∀ (evs : List TurtleEvent) (t : BaseTurtle) (l : Int × Int × Int × Int),
      l ∈ (t.run evs).lines →
      l ∈ t.lines ∨
        ((l.1, l.2.1) ∈ (t.x, t.y) :: t.positionsFrom evs ∧
         (l.2.2.1, l.2.2.2) ∈ (t.x, t.y) :: t.positionsFrom evs) := by
  intro evs
  induction evs with
  | nil =>
      intro t l hl
      exact Or.inl hl
  | cons e evs ih =>
      intro t l hl
      have hsub : ∀ q : Int × Int,
          q ∈ ((t.apply e).x, (t.apply e).y) :: (t.apply e).positionsFrom evs →
          q ∈ (t.x, t.y) :: t.positionsFrom (e :: evs) := by
        intro q hq
        exact List.mem_cons_of_mem _ hq
      rcases ih (t.apply e) l hl with h | ⟨h1, h2⟩
      · cases e with
        | deltaMove dx dy =>
            cases hp : t.pen_down with
            | false =>
                refine Or.inl ?_
                simpa [BaseTurtle.apply, BaseTurtle.delta_move, BaseTurtle.update_bounds, hp] using h
            | true =>
                have h' : l ∈ t.lines ∨ l = (t.x, t.y, t.x + dx, t.y + dy) := by
                  simpa [BaseTurtle.apply, BaseTurtle.delta_move, BaseTurtle.update_bounds, hp,
                    List.mem_append] using h
                rcases h' with h' | h'
                · exact Or.inl h'
                · subst h'
                  refine Or.inr ⟨List.mem_cons_self _ _, List.mem_cons_of_mem _ ?_⟩
                  exact List.mem_cons_self _ _
        | setPosition x y =>
            refine Or.inl ?_
            simpa [BaseTurtle.apply, BaseTurtle.set_position, BaseTurtle.update_bounds] using h
        | penUp =>
            refine Or.inl ?_
            simpa [BaseTurtle.apply, BaseTurtle.penUp] using h
        | penDown =>
            refine Or.inl ?_
            simpa [BaseTurtle.apply, BaseTurtle.penDown] using h
      · exact Or.inr ⟨hsub _ h1, hsub _ h2⟩

/-- C2: running any sequence of `delta_move`/`set_position`/`pen_up`/
`pen_down` calls on a fresh `BaseTurtle`, the final `min_x`/`min_y`
(resp. `max_x`/`max_y`) are the minima (resp. maxima) over all positions
ever visited, including the start `(0, 0)`; `bounds()` returns
`(max - min, max - min, min_x, min_y)`; and every recorded line endpoint
translated by `(-min_x, -min_y)` lies within `[0, width] × [0, height]`. -/
theorem baseTurtle_bounds_correct (evs : List TurtleEvent) :
    BoundsCorrect (BaseTurtle.new.run evs) (visitedPositions evs) := by
  have hInv : BaseTurtle.new.PosInv := ⟨le_refl 0, le_refl 0, le_refl 0, le_refl 0⟩
  obtain ⟨hminx, hminy, hmaxx, hmaxy⟩ := run_bounds_fold evs BaseTurtle.new hInv
  have hall : ∀ p ∈ visitedPositions evs,
      (BaseTurtle.new.run evs).min_x ≤ p.1 ∧ p.1 ≤ (BaseTurtle.new.run evs).max_x ∧
      (BaseTurtle.new.run evs).min_y ≤ p.2 ∧ p.2 ≤ (BaseTurtle.new.run evs).max_y := by
    intro p hp
    rcases List.mem_cons.mp hp with hp | hp
    · subst hp
      refine ⟨?_, ?_, ?_, ?_⟩
      · exact hminx ▸ foldl_min_le_init _ _ _
      · exact hmaxx ▸ foldl_max_ge_init _ _ _
      · exact hminy ▸ foldl_min_le_init _ _ _
      · exact hmaxy ▸ foldl_max_ge_init _ _ _
    · refine ⟨?_, ?_, ?_, ?_⟩
      · exact hminx ▸ foldl_min_le_mem _ _ _ p hp
      · exact hmaxx ▸ foldl_max_ge_mem _ _ _ p hp
      · exact hminy ▸ foldl_min_le_mem _ _ _ p hp
      · exact hmaxy ▸ foldl_max_ge_mem _ _ _ p hp
  have hx0 : (BaseTurtle.new.run evs).min_x ≤ 0 := (hall (0, 0) (List.mem_cons_self _ _)).1
  have hy0 : (BaseTurtle.new.run evs).min_y ≤ 0 := (hall (0, 0) (List.mem_cons_self _ _)).2.2.1
  have hbounds : (BaseTurtle.new.run evs).bounds =
      ((BaseTurtle.new.run evs).max_x - (BaseTurtle.new.run evs).min_x,
       (BaseTurtle.new.run evs).max_y - (BaseTurtle.new.run evs).min_y,
       (BaseTurtle.new.run evs).min_x, (BaseTurtle.new.run evs).min_y) := by
    have hax : |(BaseTurtle.new.run evs).min_x| = -(BaseTurtle.new.run evs).min_x :=
      abs_of_nonpos hx0
    have hay : |(BaseTurtle.new.run evs).min_y| = -(BaseTurtle.new.run evs).min_y :=
      abs_of_nonpos hy0
    simp [BaseTurtle.bounds, hax, hay, sub_eq_add_neg]
  have hmemx : (BaseTurtle.new.run evs).min_x ∈ (visitedPositions evs).map Prod.fst := by
    rcases foldl_min_eq_mem (fun q : Int × Int => q.1) (BaseTurtle.new.positionsFrom evs) 0 with h | ⟨p, hp, h⟩
    · exact List.mem_map.mpr ⟨(0, 0), List.mem_cons_self _ _, by rw [hminx]; exact h.symm⟩
    · exact List.mem_map.mpr ⟨p, List.mem_cons_of_mem _ hp, by rw [hminx]; exact h.symm⟩
  have hmemy : (BaseTurtle.new.run evs).min_y ∈ (visitedPositions evs).map Prod.snd := by
    rcases foldl_min_eq_mem (fun q : Int × Int => q.2) (BaseTurtle.new.positionsFrom evs) 0 with h | ⟨p, hp, h⟩
    · exact List.mem_map.mpr ⟨(0, 0), List.mem_cons_self _ _, by rw [hminy]; exact h.symm⟩
    · exact List.mem_map.mpr ⟨p, List.mem_cons_of_mem _ hp, by rw [hminy]; exact h.symm⟩
  have hmemx2 : (BaseTurtle.new.run evs).max_x ∈ (visitedPositions evs).map Prod.fst := by
    rcases foldl_max_eq_mem (fun q : Int × Int => q.1) (BaseTurtle.new.positionsFrom evs) 0 with h | ⟨p, hp, h⟩
    · exact List.mem_map.mpr ⟨(0, 0), List.mem_cons_self _ _, by rw [hmaxx]; exact h.symm⟩
    · exact List.mem_map.mpr ⟨p, List.mem_cons_of_mem _ hp, by rw [hmaxx]; exact h.symm⟩
  have hmemy2 : (BaseTurtle.new.run evs).max_y ∈ (visitedPositions evs).map Prod.snd := by
    rcases foldl_max_eq_mem (fun q : Int × Int => q.2) (BaseTurtle.new.positionsFrom evs) 0 with h | ⟨p, hp, h⟩
    · exact List.mem_map.mpr ⟨(0, 0), List.mem_cons_self _ _, by rw [hmaxy]; exact h.symm⟩
    · exact List.mem_map.mpr ⟨p, List.mem_cons_of_mem _ hp, by rw [hmaxy]; exact h.symm⟩
  refine ⟨hall, hmemx, hmemy, hmemx2, hmemy2, hbounds, ?_⟩
  intro l hl
  rcases run_lines_endpoints evs BaseTurtle.new l hl with h | ⟨h1, h2⟩
  · simp [BaseTurtle.new] at h
  · have e1 := hall _ h1
    have e2 := hall _ h2
    have hb1 : (BaseTurtle.new.run evs).bounds.1 =
        (BaseTurtle.new.run evs).max_x - (BaseTurtle.new.run evs).min_x := by rw [hbounds]
    have hb2 : (BaseTurtle.new.run evs).bounds.2.1 =
        (BaseTurtle.new.run evs).max_y - (BaseTurtle.new.run evs).min_y := by rw [hbounds]
    rw [hb1, hb2]
    simp only at e1 e2
    refine ⟨?_, ?_, ?_, ?_, ?_, ?_, ?_, ?_⟩ <;> omega
